import Mathlib

/-!
Verification of the web-export pyramid builder (`src/export.py` together with
its CLI wrapper `06_export_for_web.py`).

The embedding below translates the Python source into Lean:
* Python floats are modelled as `Rat` (the claims under study are structural
  and do not depend on rounding); `int()` truncation is `pyInt`.
* Python `min(..., key=f)` / `max(..., key=f)` keep the first optimal element
  in iteration order; they are modelled by `pyMinBy` / `pyMaxBy`.
* CPython dicts preserve insertion order; a dict of buckets built
  incrementally is modelled as an association list built by `bucket_insert`.
* The network fetch / image re-encode pipeline (`_download_image`) is
  abstracted by a boolean oracle `fetchOk : String → Bool` plus a per-cell
  `fileExists` flag; `random.sample` is abstracted by an oracle
  `sample : List Point → List Point`.
-/

/-- A normalized data point (rows of the UMAP parquet after normalization). -/
structure Point where
  url : String
  caption : String
  x : Rat
  y : Rat
deriving DecidableEq

/-- One entry of a cell record's `examples` list: `{'url': ..., 'caption': ...}`. -/
structure ExampleRec where
  url : String
  caption : String
deriving DecidableEq

/-- A cell record as produced by `_process_cell_256` / `_aggregate_grid`. -/
structure Record where
  count : Nat
  img : String
  url : String
  caption : String
  examples : List ExampleRec
deriving DecidableEq

/-- Python `int()` applied to a float: truncation toward zero. -/
def pyInt (q : Rat) : Int :=
  if 0 ≤ q then q.floor else q.ceil

/-- Python `min(l, key=f)` for nonempty `l`: the first element attaining the
minimal key, `none` on the empty list. -/
def pyMinBy {α β : Type} [LinearOrder β] (f : α → β) : List α → Option α
  | [] => none
  | x :: xs => some (xs.foldl (fun best p => if f p < f best then p else best) x)

/-- Python `max(l, key=f)` for nonempty `l`: the first element attaining the
maximal key, `none` on the empty list. -/
def pyMaxBy {α β : Type} [LinearOrder β] (f : α → β) : List α → Option α
  | [] => none
  | x :: xs => some (xs.foldl (fun best p => if f best < f p then p else best) x)

/-- `math.ceil(a / b)` for positive integers. -/
def ceilDiv (a b : Nat) : Nat := (a + b - 1) / b

/-- Squared Euclidean distance of a point to the coordinates `(cx, cy)`,
as in `(p['x'] - cx)**2 + (p['y'] - cy)**2`. -/
def sqDist (p : Point) (cx cy : Rat) : Rat :=
  (p.x - cx) * (p.x - cx) + (p.y - cy) * (p.y - cy)

/-- Inserting one element into a CPython dict of buckets
(`mini_cells[key].append(point)`, creating the key at the end on first use). -/
def bucket_insert {K α : Type} [DecidableEq K] :
    List (K × List α) → K → α → List (K × List α)
  | [], k, p => [(k, [p])]
  | (k', ps) :: rest, k, p =>
    if k' = k then (k', ps ++ [p]) :: rest else (k', ps) :: bucket_insert rest k p

/-- Grouping a list by a key function into an insertion-ordered dict of
buckets, as the Python loops over `mini_cells` and `grid_256_buckets` do. -/
def groupByKey {K α : Type} [DecidableEq K] (keyF : α → K) (l : List α) :
    List (K × List α) :=
  l.foldl (fun m p => bucket_insert m (keyF p) p) []

/-- Python `dict[key]` access on an insertion-ordered association list. -/
def lookupKey {K α : Type} [DecidableEq K] : List (K × α) → K → Option α
  | [], _ => none
  | (k', v) :: rest, k => if k' = k then some v else lookupKey rest k

/-- Constant `self.MINI_GRID_SIZE`. -/
def MINI_GRID_SIZE : Nat := 10

/-- Constant `self.EXAMPLES_PER_CELL`. -/
def EXAMPLES_PER_CELL : Nat := 100

/-- Constant `self.MAX_JSON_MB`. -/
def MAX_JSON_MB : Nat := 50

/-- The sub-grid key of a point inside a cell:
`mini_x = int((x - x_min) / mini_width)` etc., clamped from above to
`MINI_GRID_SIZE - 1` (the source clamps only the upper side). -/
def miniKey (x_min y_min mini_width mini_height : Rat) (p : Point) : Int × Int :=
  (min (pyInt ((p.x - x_min) / mini_width)) ((MINI_GRID_SIZE : Int) - 1),
   min (pyInt ((p.y - y_min) / mini_height)) ((MINI_GRID_SIZE : Int) - 1))

/-- `WebExporter._find_densest_point`: the representative point in the densest
area of the cell. -/
def find_densest_point (cell_points : List Point)
    (bounds : Rat × Rat × Rat × Rat) : Option Point :=
  let x_min := bounds.1
  let x_max := bounds.2.1
  let y_min := bounds.2.2.1
  let y_max := bounds.2.2.2
  if cell_points.length ≤ 50 then
    -- (an empty list also lands here and yields `none`, as `if not cell_points`)
    let center_x := (x_min + x_max) / 2
    let center_y := (y_min + y_max) / 2
    pyMinBy (fun p => sqDist p center_x center_y) cell_points
  else
    let mini_width := (x_max - x_min) / (MINI_GRID_SIZE : Rat)
    let mini_height := (y_max - y_min) / (MINI_GRID_SIZE : Rat)
    let mini_cells := groupByKey (miniKey x_min y_min mini_width mini_height) cell_points
    match pyMaxBy (fun kv => kv.2.length) mini_cells with
    | none => none
    | some (densest_key, densest_points) =>
      let mini_center_x := x_min + ((densest_key.1 : Rat) + 1/2) * mini_width
      let mini_center_y := y_min + ((densest_key.2 : Rat) + 1/2) * mini_height
      pyMinBy (fun p => sqDist p mini_center_x mini_center_y) densest_points

example : pyMinBy (fun q : Rat => q) [3, 1, 2, 1] = some 1 := by decide

example :
    find_densest_point
      [⟨"a", "ca", 1/4, 1/4⟩, ⟨"b", "cb", 1/2, 1/2⟩]
      (0, 1, 0, 1) = some ⟨"b", "cb", 1/2, 1/2⟩ := by with_unfolding_all decide

/-- `WebExporter._download_image` for one candidate of one cell, as a pure
outcome: it reports success immediately when the destination file already
exists, and otherwise succeeds iff the whole fetch/decode/resize/save pipeline
succeeds for the candidate's url, which is abstracted by the oracle
`fetchOk`. -/
def download_image (fileExists : Bool) (fetchOk : String → Bool) (url : String) : Bool :=
  fileExists || fetchOk url

/-- The `for point in sorted_points[:10]` loop with its `break`: the first
candidate for which the download reports success. -/
def firstSuccess (ok : Point → Bool) : List Point → Option Point
  | [] => none
  | p :: ps => if ok p then some p else firstSuccess ok ps

/-- The bounds of cell `(cell_x, cell_y)` at the finest (256) level, as
computed at the top of `_process_cell_256`. -/
def cellBounds256 (cell_x cell_y : Int) : Rat × Rat × Rat × Rat :=
  let cell_width : Rat := Rat.div 1 256
  (cell_x * cell_width, (cell_x + 1) * cell_width,
   cell_y * cell_width, (cell_y + 1) * cell_width)

/-- `sorted(cell_points, key=squared distance to best_point)`: Python's
`sorted` is a stable merge sort, modelled by `List.mergeSort`. -/
def sortByDistTo (best : Point) (pts : List Point) : List Point :=
  pts.mergeSort (fun p q => decide (sqDist p best.x best.y ≤ sqDist q best.x best.y))

/-- `sorted_points[:10]`: the at most 10 candidates the acquirer walks. -/
def candidates256 (best : Point) (pts : List Point) : List Point :=
  (sortByDistTo best pts).take 10

/-- The `examples` list of a finest-level record: all distance-sorted points
when they fit the cap, otherwise `random.sample(sorted_points, 100)`
(abstracted by the oracle `sample`). -/
def mkExamples (sample : List Point → List Point) (sorted_points : List Point) :
    List ExampleRec :=
  let examples :=
    if sorted_points.length ≤ EXAMPLES_PER_CELL then sorted_points
    else sample sorted_points
  examples.map (fun p => ⟨p.url, p.caption⟩)

/-- `WebExporter._process_cell_256`: one finest-level cell. `fileExists`
states whether `images/256/{cell_x}_{cell_y}.webp` already exists on disk
when the cell is processed. -/
def process_cell_256 (fetchOk : String → Bool) (fileExists : Bool)
    (sample : List Point → List Point) (cell_points : List Point)
    (cell_x cell_y : Int) : Option Record :=
  let bounds := cellBounds256 cell_x cell_y
  match find_densest_point cell_points bounds with
  | none => none
  | some best_point =>
    let sorted_points := sortByDistTo best_point cell_points
    let image_filename := toString cell_x ++ "_" ++ toString cell_y ++ ".webp"
    match firstSuccess (fun p => download_image fileExists fetchOk p.url)
        (sorted_points.take 10) with
    | none => none
    | some final_point =>
      some ⟨cell_points.length, "images/256/" ++ image_filename,
            final_point.url, final_point.caption, mkExamples sample sorted_points⟩

/-- The finest-level cell of a point, as bucketed in `generate_grids`:
`cx = min(int(p['x'] * 256), 255)`, likewise for `cy`. -/
def pointCell256 (p : Point) : Int × Int :=
  (min (pyInt (p.x * 256)) 255, min (pyInt (p.y * 256)) 255)

/-- `grid_256_buckets`: the insertion-ordered dict of finest-level buckets. -/
def bucket256 (points : List Point) : List ((Int × Int) × List Point) :=
  groupByKey pointCell256 points

/-- A level of the pyramid: an insertion-ordered mapping from cell keys to
records (the Python dicts keyed by the string `f"{cx},{cy}"`; the key string
is in bijection with the integer pair). -/
abbrev Grid := List ((Int × Int) × Record)

/-- `grid_256_data`: per-bucket processing results, keeping the successful
cells keyed by their cell, in bucket order (the `zip` in `generate_grids`). -/
def grid256 (fetchOk : String → Bool) (fileExists : Int × Int → Bool)
    (sample : List Point → List Point) (points : List Point) : Grid :=
  (bucket256 points).filterMap (fun kv =>
    (process_cell_256 fetchOk (fileExists kv.1) sample kv.2 kv.1.1 kv.1.2).map
      (fun r => (kv.1, r)))

/-- The four child keys of coarse cell `(cx, cy)`, in the fixed source order
`(dx,dy) = (0,0),(0,1),(1,0),(1,1)`. -/
def child_keys (cx cy : Nat) : List (Int × Int) :=
  [(2 * (cx : Int), 2 * (cy : Int)), (2 * (cx : Int), 2 * (cy : Int) + 1),
   (2 * (cx : Int) + 1, 2 * (cy : Int)), (2 * (cx : Int) + 1, 2 * (cy : Int) + 1)]

/-- The present children of coarse cell `(cx, cy)` in a finer grid, in the
fixed order, skipping absent ones. -/
def aggChildren (lower : Grid) (cx cy : Nat) : List Record :=
  (child_keys cx cy).filterMap (fun k => lookupKey lower k)

/-- The record `_aggregate_grid` builds from a nonempty child list and its
best child. -/
def aggRecord (children : List Record) (best_child : Record) : Record :=
  let total_count := (children.map (fun c => c.count)).sum
  let take_n := ceilDiv EXAMPLES_PER_CELL children.length
  let all_examples := children.flatMap (fun c => c.examples.take take_n)
  ⟨total_count, best_child.img, best_child.url, best_child.caption,
   all_examples.take EXAMPLES_PER_CELL⟩

/-- `WebExporter._aggregate_grid`: aggregate a finer grid into a coarser one
of size `target_size`, visiting `(cx, cy)` in the source's loop order and
skipping coarse cells with no present children. -/
def aggregate_grid (lower : Grid) (target_size : Nat) : Grid :=
  (List.range target_size).flatMap (fun cx =>
    (List.range target_size).filterMap (fun cy =>
      let children := aggChildren lower cx cy
      match pyMaxBy (fun c => c.count) children with
      | none => none
      | some best_child => some (((cx : Int), (cy : Int)), aggRecord children best_child)))

/-- The grid-building part of `WebExporter.generate_grids` (after
`load_and_normalize`): the finest level plus the two aggregated levels. -/
def build_grids (fetchOk : String → Bool) (fileExists : Int × Int → Bool)
    (sample : List Point → List Point) (points : List Point) :
    Grid × Grid × Grid :=
  let grid_256_data := grid256 fetchOk fileExists sample points
  let grid_128_data := aggregate_grid grid_256_data 128
  let grid_64_data := aggregate_grid grid_128_data 64
  (grid_256_data, grid_128_data, grid_64_data)

/-- `WebExporter.save_json_split`: the shards written for one level, given the
byte size of the level's compact JSON serialization (the serialization itself
is external string formatting and is abstracted as `sizeBytes`). Keys are the
textual `"cx,cy"` strings and are sorted as Python sorts them
(lexicographically). Within budget, a single file holds all (sorted) items;
otherwise the sorted items are cut into `parts` contiguous chunks of
`ceil(itemCount/parts)` items, written as sequentially numbered shards. -/
def save_json_split (sizeBytes : Nat) (data : List (String × Record)) :
    List (List (String × Record)) :=
  let sorted_items := data.mergeSort (fun a b => decide (a.1 < b.1) || (a.1 == b.1))
  if sizeBytes ≤ MAX_JSON_MB * 1024 * 1024 then
    [sorted_items]
  else
    let parts := ceilDiv sizeBytes (MAX_JSON_MB * 1024 * 1024)
    let chunk_size := ceilDiv sorted_items.length parts
    (List.range parts).map (fun i =>
      (sorted_items.drop (i * chunk_size)).take chunk_size)

/-- A raw input table (the UMAP parquet as read by pandas): which columns are
present, and the rows. A missing coordinate/url/caption column is modelled by
the corresponding flag being `false`; `rows` carries the per-row values. -/
structure RawInput where
  hasX : Bool
  hasY : Bool
  hasUrl : Bool
  hasCaption : Bool
  rows : List Point
deriving DecidableEq

/-- `WebExporter.load_and_normalize`. Raises `ValueError` when a required
column (`x`, `y`, `url`) is missing; accessing the `caption` column during the
final projection raises `KeyError` when it is missing. No other path raises:
in particular neither an empty row list nor a zero coordinate range is
checked. (Python performs the normalization in floats, producing NaN/inf
values when an axis range is zero or the table is empty; Lean's total rational
division returns 0 there instead. No theorem below depends on normalized
values in that regime — only on whether the call raises.) -/
def load_and_normalize (inp : RawInput) : Except String (List Point) :=
  if !(inp.hasX && inp.hasY && inp.hasUrl) then
    Except.error "Input file missing columns. Required: ['x', 'y', 'url']"
  else if !inp.hasCaption then
    Except.error "KeyError: 'caption'"
  else
    let x_min := ((inp.rows.map (fun r => r.x)).min?).getD 0
    let x_max := ((inp.rows.map (fun r => r.x)).max?).getD 0
    let y_min := ((inp.rows.map (fun r => r.y)).min?).getD 0
    let y_max := ((inp.rows.map (fun r => r.y)).max?).getD 0
    Except.ok (inp.rows.map (fun r =>
      ⟨r.url, r.caption,
       Rat.div (r.x - x_min) (x_max - x_min),
       Rat.div (r.y - y_min) (y_max - y_min)⟩))

/-- The first element of `l` minimizing `f`, phrased independently of the
fold in `pyMinBy`: the first element whose value is a global minimum. -/
def argminFirst (f : Point → Rat) (l : List Point) : Option Point :=
  l.find? (fun x => decide (∀ y ∈ l, f x ≤ f y))

/-- The keys of a list in order of first occurrence (CPython dict key order
for a dict built by insertion). -/
def firstOccurrences {K : Type} [DecidableEq K] : List K → List K
  | [] => []
  | k :: ks => k :: (firstOccurrences ks).filter (fun k' => decide (k' ≠ k))

/-- The points of `cell_points` falling in sub-cell `k`. -/
def miniBucket (x_min y_min mini_width mini_height : Rat)
    (cell_points : List Point) (k : Int × Int) : List Point :=
  cell_points.filter (fun p => decide (miniKey x_min y_min mini_width mini_height p = k))

/-- The Representative Selector as the claim states it (spec §4.3): for more
than 50 points, the densest sub-cell is chosen with ties broken by the lowest
row-major sub-cell index. Written from the claim's words, to compare with
`find_densest_point` (which is written from the source). -/
def find_densest_point_claimed (cell_points : List Point)
    (bounds : Rat × Rat × Rat × Rat) : Option Point :=
  let x_min := bounds.1
  let x_max := bounds.2.1
  let y_min := bounds.2.2.1
  let y_max := bounds.2.2.2
  if cell_points.length ≤ 50 then
    let center_x := (x_min + x_max) / 2
    let center_y := (y_min + y_max) / 2
    argminFirst (fun p => sqDist p center_x center_y) cell_points
  else
    let mini_width := (x_max - x_min) / (MINI_GRID_SIZE : Rat)
    let mini_height := (y_max - y_min) / (MINI_GRID_SIZE : Rat)
    let bucketOf := miniBucket x_min y_min mini_width mini_height cell_points
    let row_major :=
      (List.range MINI_GRID_SIZE).flatMap (fun mx =>
        (List.range MINI_GRID_SIZE).map (fun my => ((mx : Int), (my : Int))))
    let present := row_major.filter (fun k => !(bucketOf k).isEmpty)
    match present.find? (fun k => decide (∀ k' ∈ present, (bucketOf k').length ≤ (bucketOf k).length)) with
    | none => none
    | some densest_key =>
      let mini_center_x := x_min + ((densest_key.1 : Rat) + 1/2) * mini_width
      let mini_center_y := y_min + ((densest_key.2 : Rat) + 1/2) * mini_height
      argminFirst (fun p => sqDist p mini_center_x mini_center_y) (bucketOf densest_key)

/-- The Representative Selector as the amended claim states it: as
`find_densest_point_claimed`, except that a tie between equally dense
sub-cells is broken in favor of the sub-cell whose first point occurs
earliest in input iteration order (CPython dict insertion order), not the
lowest row-major index. -/
def find_densest_point_amended (cell_points : List Point)
    (bounds : Rat × Rat × Rat × Rat) : Option Point :=
  let x_min := bounds.1
  let x_max := bounds.2.1
  let y_min := bounds.2.2.1
  let y_max := bounds.2.2.2
  if cell_points.length ≤ 50 then
    let center_x := (x_min + x_max) / 2
    let center_y := (y_min + y_max) / 2
    argminFirst (fun p => sqDist p center_x center_y) cell_points
  else
    let mini_width := (x_max - x_min) / (MINI_GRID_SIZE : Rat)
    let mini_height := (y_max - y_min) / (MINI_GRID_SIZE : Rat)
    let bucketOf := miniBucket x_min y_min mini_width mini_height cell_points
    let key_order :=
      firstOccurrences (cell_points.map (miniKey x_min y_min mini_width mini_height))
    match key_order.find? (fun k => decide (∀ k' ∈ key_order, (bucketOf k').length ≤ (bucketOf k).length)) with
    | none => none
    | some densest_key =>
      let mini_center_x := x_min + ((densest_key.1 : Rat) + 1/2) * mini_width
      let mini_center_y := y_min + ((densest_key.2 : Rat) + 1/2) * mini_height
      argminFirst (fun p => sqDist p mini_center_x mini_center_y) (bucketOf densest_key)

/-- `run_process` in `06_export_for_web.py`: load, build the three grids, and
return the process exit code together with the produced levels. Any exception
escaping the pipeline is caught and turned into `sys.exit(1)`; a completed
run logs success and exits 0. -/
def run_process (fetchOk : String → Bool) (fileExists : Int × Int → Bool)
    (sample : List Point → List Point) (inp : RawInput) :
    Nat × Option (Grid × Grid × Grid) :=
  match load_and_normalize inp with
  | Except.error _ => (1, none)
  | Except.ok points => (0, some (build_grids fetchOk fileExists sample points))

/-! ### Characterization of Python `min`/`max` with a key function -/

theorem foldl_pickMin_decomp {α β : Type} [LinearOrder β] (f : α → β) (xs : List α) :
    ∀ x : α, ∃ l₁ l₂,
      x :: xs = l₁ ++ xs.foldl (fun best p => if f p < f best then p else best) x :: l₂
      ∧ (∀ a ∈ l₁, f (xs.foldl (fun best p => if f p < f best then p else best) x) < f a)
      ∧ (∀ a ∈ l₂, f (xs.foldl (fun best p => if f p < f best then p else best) x) ≤ f a) := by
  induction xs with
  | nil => intro x; exact ⟨[], [], rfl, by simp, by simp⟩
  | cons y ys ih =>
    intro x
    by_cases h : f y < f x
    · obtain ⟨l₁, l₂, hEq, h₁, h₂⟩ := ih y
      refine ⟨x :: l₁, l₂, ?_, ?_, ?_⟩
      · simpa [List.foldl_cons, h] using congrArg (List.cons x) hEq
      · intro a ha
        have hm'y : f (ys.foldl (fun best p => if f p < f best then p else best) y) ≤ f y := by
          cases l₁ with
          | nil =>
            have : y = ys.foldl (fun best p => if f p < f best then p else best) y :=
              (List.cons.injEq _ _ _ _ ▸ hEq).1
            exact le_of_eq (congrArg f this.symm)
          | cons b l₁' =>
            have hyb : y = b := (List.cons.injEq _ _ _ _ ▸ hEq).1
            exact le_of_lt (hyb ▸ h₁ b (List.mem_cons_self b l₁'))
        rcases List.mem_cons.mp ha with rfl | ha'
        · simpa [List.foldl_cons, h] using lt_of_le_of_lt hm'y h
        · simpa [List.foldl_cons, h] using h₁ a ha'
      · intro a ha
        simpa [List.foldl_cons, h] using h₂ a ha
    · obtain ⟨l₁, l₂, hEq, h₁, h₂⟩ := ih x
      have hxy : f x ≤ f y := le_of_not_lt h
      cases l₁ with
      | nil =>
        have hx : x = ys.foldl (fun best p => if f p < f best then p else best) x :=
          (List.cons.injEq _ _ _ _ ▸ hEq).1
        have hys : ys = l₂ := (List.cons.injEq _ _ _ _ ▸ hEq).2
        refine ⟨[], y :: ys, ?_, by simp, ?_⟩
        · simp [List.foldl_cons, h, ← hx]
        · intro a ha
          rcases List.mem_cons.mp ha with rfl | ha'
          · simpa [List.foldl_cons, h, ← hx] using hxy
          · simpa [List.foldl_cons, h] using h₂ a (hys ▸ ha')
      | cons b l₁' =>
        have hxb : x = b := (List.cons.injEq _ _ _ _ ▸ hEq).1
        have hys : ys = l₁' ++ ys.foldl (fun best p => if f p < f best then p else best) x :: l₂ :=
          (List.cons.injEq _ _ _ _ ▸ hEq).2
        refine ⟨x :: y :: l₁', l₂, ?_, ?_, ?_⟩
        · simp only [List.foldl_cons, if_neg h, List.cons_append]
          exact congrArg (List.cons x) (congrArg (List.cons y) hys)
        · intro a ha
          have hmx : f (ys.foldl (fun best p => if f p < f best then p else best) x) < f x :=
            hxb ▸ h₁ b (List.mem_cons_self b l₁')
          rcases List.mem_cons.mp ha with rfl | ha'
          · simpa [List.foldl_cons, h] using hmx
          · rcases List.mem_cons.mp ha' with rfl | ha''
            · simpa [List.foldl_cons, h] using lt_of_lt_of_le hmx hxy
            · simpa [List.foldl_cons, h] using h₁ a (List.mem_cons_of_mem b ha'')
        · intro a ha
          simpa [List.foldl_cons, h] using h₂ a ha

theorem pyMinBy_decomp {α β : Type} [LinearOrder β] (f : α → β) (l : List α) (m : α)
    (h : pyMinBy f l = some m) :
    ∃ l₁ l₂, l = l₁ ++ m :: l₂ ∧ (∀ a ∈ l₁, f m < f a) ∧ (∀ a ∈ l₂, f m ≤ f a) := by
  cases l with
  | nil => simp [pyMinBy] at h
  | cons x xs =>
    obtain ⟨l₁, l₂, hEq, h₁, h₂⟩ := foldl_pickMin_decomp f xs x
    have hm : xs.foldl (fun best p => if f p < f best then p else best) x = m := by
      simpa [pyMinBy] using h
    exact ⟨l₁, l₂, hm ▸ hEq, hm ▸ h₁, hm ▸ h₂⟩

theorem foldl_pickMax_decomp {α β : Type} [LinearOrder β] (f : α → β) (xs : List α) :
    ∀ x : α, ∃ l₁ l₂,
      x :: xs = l₁ ++ xs.foldl (fun best p => if f best < f p then p else best) x :: l₂
      ∧ (∀ a ∈ l₁, f a < f (xs.foldl (fun best p => if f best < f p then p else best) x))
      ∧ (∀ a ∈ l₂, f a ≤ f (xs.foldl (fun best p => if f best < f p then p else best) x)) := by
  induction xs with
  | nil => intro x; exact ⟨[], [], rfl, by simp, by simp⟩
  | cons y ys ih =>
    intro x
    by_cases h : f x < f y
    · obtain ⟨l₁, l₂, hEq, h₁, h₂⟩ := ih y
      refine ⟨x :: l₁, l₂, ?_, ?_, ?_⟩
      · simpa [List.foldl_cons, h] using congrArg (List.cons x) hEq
      · intro a ha
        have hym' : f y ≤ f (ys.foldl (fun best p => if f best < f p then p else best) y) := by
          cases l₁ with
          | nil =>
            have : y = ys.foldl (fun best p => if f best < f p then p else best) y :=
              (List.cons.injEq _ _ _ _ ▸ hEq).1
            exact le_of_eq (congrArg f this)
          | cons b l₁' =>
            have hyb : y = b := (List.cons.injEq _ _ _ _ ▸ hEq).1
            exact le_of_lt (hyb ▸ h₁ b (List.mem_cons_self b l₁'))
        rcases List.mem_cons.mp ha with rfl | ha'
        · simpa [List.foldl_cons, h] using lt_of_lt_of_le h hym'
        · simpa [List.foldl_cons, h] using h₁ a ha'
      · intro a ha
        simpa [List.foldl_cons, h] using h₂ a ha
    · obtain ⟨l₁, l₂, hEq, h₁, h₂⟩ := ih x
      have hyx : f y ≤ f x := le_of_not_lt h
      cases l₁ with
      | nil =>
        have hx : x = ys.foldl (fun best p => if f best < f p then p else best) x :=
          (List.cons.injEq _ _ _ _ ▸ hEq).1
        have hys : ys = l₂ := (List.cons.injEq _ _ _ _ ▸ hEq).2
        refine ⟨[], y :: ys, ?_, by simp, ?_⟩
        · simp [List.foldl_cons, h, ← hx]
        · intro a ha
          rcases List.mem_cons.mp ha with rfl | ha'
          · simpa [List.foldl_cons, h, ← hx] using hyx
          · simpa [List.foldl_cons, h] using h₂ a (hys ▸ ha')
      | cons b l₁' =>
        have hxb : x = b := (List.cons.injEq _ _ _ _ ▸ hEq).1
        have hys : ys = l₁' ++ ys.foldl (fun best p => if f best < f p then p else best) x :: l₂ :=
          (List.cons.injEq _ _ _ _ ▸ hEq).2
        refine ⟨x :: y :: l₁', l₂, ?_, ?_, ?_⟩
        · simp only [List.foldl_cons, if_neg h, List.cons_append]
          exact congrArg (List.cons x) (congrArg (List.cons y) hys)
        · intro a ha
          have hmx : f x < f (ys.foldl (fun best p => if f best < f p then p else best) x) :=
            hxb ▸ h₁ b (List.mem_cons_self b l₁')
          rcases List.mem_cons.mp ha with rfl | ha'
          · simpa [List.foldl_cons, h] using hmx
          · rcases List.mem_cons.mp ha' with rfl | ha''
            · simpa [List.foldl_cons, h] using lt_of_le_of_lt hyx hmx
            · simpa [List.foldl_cons, h] using h₁ a (List.mem_cons_of_mem b ha'')
        · intro a ha
          simpa [List.foldl_cons, h] using h₂ a ha

theorem pyMaxBy_decomp {α β : Type} [LinearOrder β] (f : α → β) (l : List α) (m : α)
    (h : pyMaxBy f l = some m) :
    ∃ l₁ l₂, l = l₁ ++ m :: l₂ ∧ (∀ a ∈ l₁, f a < f m) ∧ (∀ a ∈ l₂, f a ≤ f m) := by
  cases l with
  | nil => simp [pyMaxBy] at h
  | cons x xs =>
    obtain ⟨l₁, l₂, hEq, h₁, h₂⟩ := foldl_pickMax_decomp f xs x
    have hm : xs.foldl (fun best p => if f best < f p then p else best) x = m := by
      simpa [pyMaxBy] using h
    exact ⟨l₁, l₂, hm ▸ hEq, hm ▸ h₁, hm ▸ h₂⟩

theorem pyMinBy_isSome {α β : Type} [LinearOrder β] (f : α → β) (l : List α) :
    (pyMinBy f l).isSome = !l.isEmpty := by
  cases l <;> simp [pyMinBy]

theorem pyMaxBy_isSome {α β : Type} [LinearOrder β] (f : α → β) (l : List α) :
    (pyMaxBy f l).isSome = !l.isEmpty := by
  cases l <;> simp [pyMaxBy]

theorem pyMinBy_mem {α β : Type} [LinearOrder β] (f : α → β) (l : List α) (m : α)
    (h : pyMinBy f l = some m) : m ∈ l := by
  obtain ⟨l₁, l₂, hEq, -, -⟩ := pyMinBy_decomp f l m h
  exact hEq ▸ List.mem_append_right l₁ (List.mem_cons_self m l₂)

theorem pyMaxBy_mem {α β : Type} [LinearOrder β] (f : α → β) (l : List α) (m : α)
    (h : pyMaxBy f l = some m) : m ∈ l := by
  obtain ⟨l₁, l₂, hEq, -, -⟩ := pyMaxBy_decomp f l m h
  exact hEq ▸ List.mem_append_right l₁ (List.mem_cons_self m l₂)

theorem find?_append_of_first {α : Type} (p : α → Bool) (l₁ l₂ : List α) (m : α)
    (hm : p m = true) (h₁ : ∀ a ∈ l₁, p a = false) :
    (l₁ ++ m :: l₂).find? p = some m := by
  induction l₁ with
  | nil => simp [List.find?, hm]
  | cons b l₁' ih =>
    have hb : p b = false := h₁ b (List.mem_cons_self b l₁')
    simp only [List.cons_append, List.find?, hb]
    exact ih (fun a ha => h₁ a (List.mem_cons_of_mem b ha))

/-- `pyMinBy` agrees with the first-global-minimum formulation. -/
theorem pyMinBy_eq_find? {α β : Type} [LinearOrder β] (f : α → β) (l : List α) :
    pyMinBy f l = l.find? (fun x => decide (∀ y ∈ l, f x ≤ f y)) := by
  cases hl : pyMinBy f l with
  | none =>
    cases l with
    | nil => rfl
    | cons x xs => simp [pyMinBy] at hl
  | some m =>
    obtain ⟨l₁, l₂, hEq, h₁, h₂⟩ := pyMinBy_decomp f l m hl
    rw [hEq]
    refine (find?_append_of_first _ l₁ l₂ m ?_ ?_).symm
    · have : ∀ y ∈ l, f m ≤ f y := by
        intro y hy
        rw [hEq] at hy
        rcases List.mem_append.mp hy with hy₁ | hy₂
        · exact le_of_lt (h₁ y hy₁)
        · rcases List.mem_cons.mp hy₂ with rfl | hy₃
          · exact le_refl _
          · exact h₂ y hy₃
      rw [decide_eq_true_eq]
      intro y hy
      exact this y (hEq ▸ hy)
    · intro a ha
      rw [decide_eq_false_iff_not]
      intro hall
      have hm : m ∈ l₁ ++ m :: l₂ := List.mem_append_right l₁ (List.mem_cons_self m l₂)
      exact absurd (hall m hm) (not_le.mpr (h₁ a ha))

/-- `pyMaxBy` agrees with the first-global-maximum formulation. -/
theorem pyMaxBy_eq_find? {α β : Type} [LinearOrder β] (f : α → β) (l : List α) :
    pyMaxBy f l = l.find? (fun x => decide (∀ y ∈ l, f y ≤ f x)) := by
  cases hl : pyMaxBy f l with
  | none =>
    cases l with
    | nil => rfl
    | cons x xs => simp [pyMaxBy] at hl
  | some m =>
    obtain ⟨l₁, l₂, hEq, h₁, h₂⟩ := pyMaxBy_decomp f l m hl
    rw [hEq]
    refine (find?_append_of_first _ l₁ l₂ m ?_ ?_).symm
    · rw [decide_eq_true_eq]
      intro y hy
      rw [← hEq] at hy
      rw [hEq] at hy
      rcases List.mem_append.mp hy with hy₁ | hy₂
      · exact le_of_lt (h₁ y hy₁)
      · rcases List.mem_cons.mp hy₂ with rfl | hy₃
        · exact le_refl _
        · exact h₂ y hy₃
    · intro a ha
      rw [decide_eq_false_iff_not]
      intro hall
      have hm : m ∈ l₁ ++ m :: l₂ := List.mem_append_right l₁ (List.mem_cons_self m l₂)
      exact absurd (hall m hm) (not_le.mpr (h₁ a ha))

/-! ### Characterization of insertion-ordered bucket dicts -/

theorem mem_firstOccurrences {K : Type} [DecidableEq K] (xs : List K) (x : K) :
    x ∈ firstOccurrences xs ↔ x ∈ xs := by
  induction xs with
  | nil => simp [firstOccurrences]
  | cons k ks ih =>
    by_cases hxk : x = k
    · simp [firstOccurrences, hxk]
    · simp [firstOccurrences, hxk, List.mem_filter, ih]

theorem firstOccurrences_nodup {K : Type} [DecidableEq K] (xs : List K) :
    (firstOccurrences xs).Nodup := by
  induction xs with
  | nil => simp [firstOccurrences]
  | cons k ks ih =>
    refine List.Nodup.cons ?_ (ih.filter _)
    intro hk
    have := (List.mem_filter.mp hk).2
    simp at this

theorem firstOccurrences_concat {K : Type} [DecidableEq K] (xs : List K) (k : K) :
    firstOccurrences (xs ++ [k]) =
      firstOccurrences xs ++ (if k ∈ xs then [] else [k]) := by
  induction xs with
  | nil => simp [firstOccurrences]
  | cons x xs ih =>
    by_cases hkx : k = x
    · subst hkx
      by_cases hkxs : k ∈ xs
      · simp [firstOccurrences, ih, hkxs, List.filter_append]
      · simp [firstOccurrences, ih, hkxs, List.filter_append]
    · by_cases hkxs : k ∈ xs
      · simp [firstOccurrences, ih, hkx, hkxs, List.filter_append, Ne.symm hkx]
      · simp [firstOccurrences, ih, hkx, hkxs, List.filter_append, Ne.symm hkx]

theorem bucket_insert_map {K α : Type} [DecidableEq K] (g : K → List α) (ks : List K)
    (hnd : ks.Nodup) (k₀ : K) (p : α) :
    bucket_insert (ks.map (fun k => (k, g k))) k₀ p =
      if k₀ ∈ ks then ks.map (fun k => (k, g k ++ if k₀ = k then [p] else []))
      else ks.map (fun k => (k, g k)) ++ [(k₀, [p])] := by
  induction ks with
  | nil => simp [bucket_insert]
  | cons k ks' ih =>
    rcases hnd with - | ⟨hk, hnd'⟩
    by_cases hkk : k = k₀
    · subst hkk
    -- the head entry receives the point; the tail is unchanged
      have htail : ks'.map (fun k' => (k', g k' ++ if k = k' then [p] else []))
          = ks'.map (fun k' => (k', g k')) := by
        refine List.map_congr_left ?_
        intro k' hk'
        have : k ≠ k' := by
          intro hEq
          exact hk k' hk' hEq
        simp [this]
      simp [bucket_insert, htail]
    · have hmem : (k₀ ∈ k :: ks') ↔ (k₀ ∈ ks') := by
        constructor
        · intro h
          rcases List.mem_cons.mp h with h' | h'
          · exact absurd h'.symm hkk
          · exact h'
        · exact fun h => List.mem_cons_of_mem k h
      by_cases hin : k₀ ∈ ks'
      · have hne : ¬ (k₀ = k) := fun hEq => hkk hEq.symm
        simp only [List.map_cons, bucket_insert, if_neg hkk, ih hnd', if_pos hin,
          if_pos (hmem.mpr hin), hne, if_false, List.append_nil]
      · have hnin : ¬ (k₀ ∈ k :: ks') := fun h => hin (hmem.mp h)
        simp only [List.map_cons, bucket_insert, if_neg hkk, ih hnd', if_neg hin,
          if_neg hnin, List.cons_append]

theorem groupByKey_concat {K α : Type} [DecidableEq K] (keyF : α → K)
    (pts : List α) (p : α) :
    groupByKey keyF (pts ++ [p]) = bucket_insert (groupByKey keyF pts) (keyF p) p := by
  simp [groupByKey, List.foldl_append]

/-- An insertion-ordered dict of buckets is precisely: the keys in order of
first occurrence, each associated with the sublist of elements having that
key. -/
theorem groupByKey_eq {K α : Type} [DecidableEq K] (keyF : α → K) (pts : List α) :
    groupByKey keyF pts =
      (firstOccurrences (pts.map keyF)).map
        (fun k => (k, pts.filter (fun q => decide (keyF q = k)))) := by
  induction pts using List.reverseRecOn with
  | nil => rfl
  | append_singleton pts p ih =>
    rw [groupByKey_concat, ih,
      bucket_insert_map _ _ (firstOccurrences_nodup _) (keyF p) p]
    by_cases hin : keyF p ∈ pts.map keyF
    · rw [if_pos ((mem_firstOccurrences _ _).mpr hin)]
      have hFO : firstOccurrences ((pts ++ [p]).map keyF)
          = firstOccurrences (pts.map keyF) := by
        rw [List.map_append, List.map_singleton, firstOccurrences_concat, if_pos hin,
          List.append_nil]
      rw [hFO]
      refine List.map_congr_left ?_
      intro k hk
      simp only [List.filter_append, List.filter_cons, List.filter_nil]
      by_cases hpk : keyF p = k
      · simp [hpk]
      · simp [hpk]
    · rw [if_neg (fun h => hin ((mem_firstOccurrences _ _).mp h))]
      have hFO : firstOccurrences ((pts ++ [p]).map keyF)
          = firstOccurrences (pts.map keyF) ++ [keyF p] := by
        rw [List.map_append, List.map_singleton, firstOccurrences_concat, if_neg hin]
      rw [hFO, List.map_append, List.map_singleton]
      congr 1
      · refine List.map_congr_left ?_
        intro k hk
        have hkin : k ∈ pts.map keyF := (mem_firstOccurrences _ _).mp hk
        have hne : ¬ (keyF p = k) := fun hEq => hin (hEq ▸ hkin)
        simp [List.filter_append, List.filter_cons, hne]
      · have hnil : pts.filter (fun q => decide (keyF q = keyF p)) = [] := by
          refine List.filter_eq_nil_iff.mpr ?_
          intro q hq hdec
          rw [decide_eq_true_eq] at hdec
          exact hin (hdec ▸ List.mem_map_of_mem keyF hq)
        simp [List.filter_append, List.filter_cons, hnil]

theorem groupByKey_keys {K α : Type} [DecidableEq K] (keyF : α → K) (pts : List α) :
    (groupByKey keyF pts).map Prod.fst = firstOccurrences (pts.map keyF) := by
  rw [groupByKey_eq, List.map_map]
  exact List.map_id _

theorem mem_groupByKey {K α : Type} [DecidableEq K] {keyF : α → K} {pts : List α}
    {k : K} {ps : List α} (h : (k, ps) ∈ groupByKey keyF pts) :
    ps = pts.filter (fun q => decide (keyF q = k)) := by
  rw [groupByKey_eq] at h
  obtain ⟨k', -, hk'⟩ := List.mem_map.mp h
  obtain ⟨h1, h2⟩ := Prod.mk.injEq .. ▸ hk'
  exact h1 ▸ h2.symm

theorem lookupKey_map {K α : Type} [DecidableEq K] (g : K → List α) (ks : List K)
    (hnd : ks.Nodup) (k₀ : K) :
    lookupKey (ks.map (fun k => (k, g k))) k₀ =
      if k₀ ∈ ks then some (g k₀) else none := by
  induction ks with
  | nil => simp [lookupKey]
  | cons k ks' ih =>
    rcases hnd with - | ⟨hk, hnd'⟩
    by_cases hkk : k = k₀
    · subst hkk
      simp [lookupKey]
    · have : ¬ (k₀ ∈ k :: ks') ↔ ¬ (k₀ ∈ ks') := by
        constructor
        · intro h h'
          exact h (List.mem_cons_of_mem k h')
        · intro h h'
          rcases List.mem_cons.mp h' with h'' | h''
          · exact hkk h''.symm
          · exact h h''
      by_cases hin : k₀ ∈ ks'
      · simp [lookupKey, hkk, ih hnd', hin, List.mem_cons_of_mem k hin]
      · have : ¬ (k₀ ∈ k :: ks') := this.mpr hin
        simp [lookupKey, hkk, ih hnd', hin, this]

theorem lookupKey_groupByKey {K α : Type} [DecidableEq K] (keyF : α → K)
    (pts : List α) (k : K) :
    lookupKey (groupByKey keyF pts) k =
      if k ∈ pts.map keyF then some (pts.filter (fun q => decide (keyF q = k)))
      else none := by
  rw [groupByKey_eq, lookupKey_map _ _ (firstOccurrences_nodup _)]
  by_cases hin : k ∈ pts.map keyF
  · rw [if_pos ((mem_firstOccurrences _ _).mpr hin), if_pos hin]
  · rw [if_neg (fun h => hin ((mem_firstOccurrences _ _).mp h)), if_neg hin]

/-! ### The shape of aggregated grid entries -/

theorem mem_aggregate_grid {lower : Grid} {target : Nat} {k : Int × Int} {r : Record} :
    (k, r) ∈ aggregate_grid lower target ↔
      ∃ cx cy, cx < target ∧ cy < target ∧ k = ((cx : Int), (cy : Int)) ∧
        ∃ best, pyMaxBy (fun c => c.count) (aggChildren lower cx cy) = some best ∧
          r = aggRecord (aggChildren lower cx cy) best := by
  constructor
  · intro h
    simp only [aggregate_grid, List.mem_flatMap, List.mem_filterMap, List.mem_range] at h
    obtain ⟨cx, hcx, cy, hcy, h⟩ := h
    rcases hbm : pyMaxBy (fun c => c.count) (aggChildren lower cx cy) with - | best
    · rw [hbm] at h
      simp at h
    · rw [hbm] at h
      simp only [Option.some.injEq] at h
      obtain ⟨hk, hr⟩ := Prod.mk.injEq .. ▸ h
      exact ⟨cx, cy, hcx, hcy, hk.symm, best, hbm, hr.symm⟩
  · rintro ⟨cx, cy, hcx, hcy, rfl, best, hbest, rfl⟩
    simp only [aggregate_grid, List.mem_flatMap, List.mem_filterMap, List.mem_range]
    exact ⟨cx, hcx, cy, hcy, by rw [hbest]⟩

/-- C1: for every coarse cell of an aggregated level, the record's count is
the sum of the counts of its present children, and a coarse cell with no
present children gets no record. -/
theorem aggregate_count_conservation (lower : Grid) (target cx cy : Nat) :
    (∀ r : Record, (((cx : Int), (cy : Int)), r) ∈ aggregate_grid lower target →
      r.count = ((aggChildren lower cx cy).map (fun c => c.count)).sum)
    ∧ (aggChildren lower cx cy = [] →
      ∀ r : Record, (((cx : Int), (cy : Int)), r) ∉ aggregate_grid lower target) := by
  constructor
  · intro r h
    rw [mem_aggregate_grid] at h
    obtain ⟨cx', cy', -, -, hk, best, hbest, hr⟩ := h
    obtain ⟨hk1, hk2⟩ := Prod.mk.injEq .. ▸ hk
    have hcx : cx' = cx := by exact_mod_cast hk1.symm
    have hcy : cy' = cy := by exact_mod_cast hk2.symm
    subst hcx hcy
    rw [hr]
    rfl
  · intro hemp r h
    rw [mem_aggregate_grid] at h
    obtain ⟨cx', cy', -, -, hk, best, hbest, -⟩ := h
    obtain ⟨hk1, hk2⟩ := Prod.mk.injEq .. ▸ hk
    have hcx : cx' = cx := by exact_mod_cast hk1.symm
    have hcy : cy' = cy := by exact_mod_cast hk2.symm
    subst hcx hcy
    rw [hemp] at hbest
    simp [pyMaxBy] at hbest

/-- A child record of the concrete two-child aggregation scenario. -/
def recA : Record := ⟨2, "images/256/0_0.webp", "u00", "c00", [⟨"u00", "c00"⟩]⟩

/-- The second child record of the concrete aggregation scenario. -/
def recB : Record := ⟨3, "images/256/0_1.webp", "u01", "c01", [⟨"u01", "c01"⟩]⟩

/-- A concrete finer level with two sibling cells `(0,0)` and `(0,1)`. -/
def lowerEx : Grid := [((0, 0), recA), ((0, 1), recB)]

/-- The record the aggregator produces for coarse cell `(0,0)` of `lowerEx`. -/
def aggEx : Record := ⟨5, "images/256/0_1.webp", "u01", "c01",
  [⟨"u00", "c00"⟩, ⟨"u01", "c01"⟩]⟩

theorem aggregate_count_conservation_witness :
    ((((0 : Int), (0 : Int)), aggEx) ∈ aggregate_grid lowerEx 1)
    ∧ aggEx.count = ((aggChildren lowerEx 0 0).map (fun c => c.count)).sum :=
  ⟨by decide, (aggregate_count_conservation lowerEx 1 0 0).1 aggEx (by decide)⟩

/-- C5: the img path, url and caption of an aggregated record are copied
verbatim from the present child with maximal count, the first such child in
the fixed child order winning ties (children left of the selected one have
strictly smaller counts, children right of it have no larger counts). -/
theorem aggregate_best_child_metadata (lower : Grid) (target cx cy : Nat) (r : Record)
    (hmem : (((cx : Int), (cy : Int)), r) ∈ aggregate_grid lower target) :
    ∃ l₁ best l₂, aggChildren lower cx cy = l₁ ++ best :: l₂
      ∧ (∀ c ∈ l₁, c.count < best.count)
      ∧ (∀ c ∈ l₂, c.count ≤ best.count)
      ∧ r.img = best.img ∧ r.url = best.url ∧ r.caption = best.caption := by
  rw [mem_aggregate_grid] at hmem
  obtain ⟨cx', cy', -, -, hk, best, hbest, hr⟩ := hmem
  obtain ⟨hk1, hk2⟩ := Prod.mk.injEq .. ▸ hk
  have hcx : cx' = cx := by exact_mod_cast hk1.symm
  have hcy : cy' = cy := by exact_mod_cast hk2.symm
  subst hcx hcy
  obtain ⟨l₁, l₂, hEq, h₁, h₂⟩ := pyMaxBy_decomp (fun c => c.count) _ best hbest
  exact ⟨l₁, best, l₂, hEq, h₁, h₂, by rw [hr]; rfl, by rw [hr]; rfl, by rw [hr]; rfl⟩

theorem aggregate_best_child_metadata_witness :
    ∃ l₁ best l₂, aggChildren lowerEx 0 0 = l₁ ++ best :: l₂
      ∧ (∀ c ∈ l₁, c.count < best.count)
      ∧ (∀ c ∈ l₂, c.count ≤ best.count)
      ∧ aggEx.img = best.img ∧ aggEx.url = best.url ∧ aggEx.caption = best.caption :=
  aggregate_best_child_metadata lowerEx 1 0 0 aggEx (by decide)

/-- C7: the examples of an aggregated record are the concatenation, in the
fixed child order, of the first `ceil(100 / numPresentChildren)` examples of
each present child, truncated to 100. -/
theorem aggregate_examples_merge (lower : Grid) (target cx cy : Nat) (r : Record)
    (hmem : (((cx : Int), (cy : Int)), r) ∈ aggregate_grid lower target) :
    r.examples = ((aggChildren lower cx cy).flatMap
      (fun c => c.examples.take (ceilDiv 100 (aggChildren lower cx cy).length))).take 100 := by
  rw [mem_aggregate_grid] at hmem
  obtain ⟨cx', cy', -, -, hk, best, hbest, hr⟩ := hmem
  obtain ⟨hk1, hk2⟩ := Prod.mk.injEq .. ▸ hk
  have hcx : cx' = cx := by exact_mod_cast hk1.symm
  have hcy : cy' = cy := by exact_mod_cast hk2.symm
  subst hcx hcy
  rw [hr]
  rfl

theorem aggregate_examples_merge_witness :
    aggEx.examples = ((aggChildren lowerEx 0 0).flatMap
      (fun c => c.examples.take (ceilDiv 100 (aggChildren lowerEx 0 0).length))).take 100 :=
  aggregate_examples_merge lowerEx 1 0 0 aggEx (by decide)

/-! ### The Image Acquirer on one finest-level cell -/

theorem process_cell_256_some {fetchOk : String → Bool} {fileExists : Bool}
    {sample : List Point → List Point} {pts : List Point} {cx cy : Int} {r : Record}
    (h : process_cell_256 fetchOk fileExists sample pts cx cy = some r) :
    ∃ best final_point,
      find_densest_point pts (cellBounds256 cx cy) = some best ∧
      firstSuccess (fun p => download_image fileExists fetchOk p.url)
        ((sortByDistTo best pts).take 10) = some final_point ∧
      r = ⟨pts.length, "images/256/" ++ (toString cx ++ "_" ++ toString cy ++ ".webp"),
           final_point.url, final_point.caption,
           mkExamples sample (sortByDistTo best pts)⟩ := by
  rcases hb : find_densest_point pts (cellBounds256 cx cy) with - | best
  · rw [process_cell_256, hb] at h
    simp at h
  · rcases hf : firstSuccess (fun p => download_image fileExists fetchOk p.url)
        ((sortByDistTo best pts).take 10) with - | final_point
    · rw [process_cell_256, hb] at h
      simp only [hf] at h
      simp at h
    · rw [process_cell_256, hb] at h
      simp only [hf, Option.some.injEq] at h
      exact ⟨best, final_point, rfl, hf, h.symm⟩

theorem sortByDistTo_trans (best : Point) :
    ∀ a b c : Point,
      decide (sqDist a best.x best.y ≤ sqDist b best.x best.y) = true →
      decide (sqDist b best.x best.y ≤ sqDist c best.x best.y) = true →
      decide (sqDist a best.x best.y ≤ sqDist c best.x best.y) = true := by
  intro a b c hab hbc
  rw [decide_eq_true_eq] at hab hbc ⊢
  exact le_trans hab hbc

theorem sortByDistTo_total (best : Point) :
    ∀ a b : Point,
      (decide (sqDist a best.x best.y ≤ sqDist b best.x best.y)
        || decide (sqDist b best.x best.y ≤ sqDist a best.x best.y)) = true := by
  intro a b
  rcases le_total (sqDist a best.x best.y) (sqDist b best.x best.y) with h | h
  · simp [h]
  · simp [h]

/-- C2: for a cell whose Selector representative is `best`, the acquirer's
candidate list is the first (at most) 10 points in ascending squared distance
to `best`; the cell's record comes from the first candidate whose download
succeeds (its url and caption are stored); if the destination file already
exists the very first candidate succeeds regardless of any fetch outcome; and
if every attempted candidate fails the cell produces no record. -/
theorem image_acquirer_spec (fetchOk : String → Bool) (fileExists : Bool)
    (sample : List Point → List Point) (pts : List Point) (best : Point) (cx cy : Int)
    (hbest : find_densest_point pts (cellBounds256 cx cy) = some best) :
    (candidates256 best pts).Pairwise
      (fun a b => sqDist a best.x best.y ≤ sqDist b best.x best.y)
    ∧ (candidates256 best pts).length ≤ 10
    ∧ (∀ p, firstSuccess (fun q => download_image fileExists fetchOk q.url)
          (candidates256 best pts) = some p →
        process_cell_256 fetchOk fileExists sample pts cx cy =
          some ⟨pts.length,
                "images/256/" ++ (toString cx ++ "_" ++ toString cy ++ ".webp"),
                p.url, p.caption, mkExamples sample (sortByDistTo best pts)⟩)
    ∧ (firstSuccess (fun q => download_image fileExists fetchOk q.url)
          (candidates256 best pts) = none →
        process_cell_256 fetchOk fileExists sample pts cx cy = none)
    ∧ (fileExists = true → ∀ p₀ rest, sortByDistTo best pts = p₀ :: rest →
        process_cell_256 fetchOk fileExists sample pts cx cy =
          some ⟨pts.length,
                "images/256/" ++ (toString cx ++ "_" ++ toString cy ++ ".webp"),
                p₀.url, p₀.caption, mkExamples sample (sortByDistTo best pts)⟩) := by
  refine ⟨?_, ?_, ?_, ?_, ?_⟩
  · have hs := @List.sorted_mergeSort Point
      (fun p q => decide (sqDist p best.x best.y ≤ sqDist q best.x best.y))
      (sortByDistTo_trans best) (sortByDistTo_total best) pts
    have ht : (candidates256 best pts).Pairwise (fun p q =>
        decide (sqDist p best.x best.y ≤ sqDist q best.x best.y) = true) :=
      List.Pairwise.sublist (List.take_sublist 10 _) hs
    exact ht.imp (fun h => of_decide_eq_true h)
  · rw [candidates256, List.length_take]
    exact min_le_left _ _
  · intro p hfind
    rw [candidates256] at hfind
    rw [process_cell_256, hbest]
    simp only [hfind]
  · intro hfind
    rw [candidates256] at hfind
    rw [process_cell_256, hbest]
    simp only [hfind]
  · intro hfe p₀ rest hsorted
    subst hfe
    have hfind : firstSuccess (fun q => download_image true fetchOk q.url)
        ((sortByDistTo best pts).take 10) = some p₀ := by
      rw [hsorted]
      simp [List.take_cons, firstSuccess, download_image]
    rw [process_cell_256, hbest]
    simp only [hfind]

/-- Two concrete points of one finest-level cell: `ptA` sits at the cell
center, `ptB` closer to the origin corner. -/
def ptA : Point := ⟨"ua", "ca", mkRat 1 512, mkRat 1 512⟩

/-- The second concrete point. -/
def ptB : Point := ⟨"ub", "cb", mkRat 1 1024, mkRat 1 1024⟩

/-- The concrete cell point list (already in ascending distance to `ptA`). -/
def ptsEx : List Point := [ptA, ptB]

/-- A fetch oracle under which only `ptB`'s url downloads successfully. -/
def fetchEx : String → Bool := fun u => u == "ub"

/-- A sampling oracle (the cap is never exceeded in the concrete scenarios). -/
def sampleEx : List Point → List Point := fun l => l.take 100

set_option maxRecDepth 8000 in
theorem image_acquirer_spec_witness :
    process_cell_256 fetchEx false sampleEx ptsEx 0 0 =
      some ⟨2, "images/256/0_0.webp", "ub", "cb",
            [⟨"ua", "ca"⟩, ⟨"ub", "cb"⟩]⟩ := by
  have hsort : sortByDistTo ptA ptsEx = ptsEx :=
    List.mergeSort_of_sorted (by with_unfolding_all decide)
  have hbest : find_densest_point ptsEx (cellBounds256 0 0) = some ptA := by
    with_unfolding_all decide
  have hfind : firstSuccess (fun q => download_image false fetchEx q.url)
      (candidates256 ptA ptsEx) = some ptB := by
    rw [candidates256, hsort]
    with_unfolding_all decide
  have h := (image_acquirer_spec fetchEx false sampleEx ptsEx ptA 0 0 hbest).2.2.1 ptB hfind
  rw [h, hsort]
  with_unfolding_all decide

/-! ### The bound on example lists (C8) -/

theorem process_cell_256_examples_le {fetchOk : String → Bool} {fileExists : Bool}
    {sample : List Point → List Point} {pts : List Point} {cx cy : Int} {r : Record}
    (hs : ∀ l : List Point, 100 < l.length → (sample l).length = 100)
    (h : process_cell_256 fetchOk fileExists sample pts cx cy = some r) :
    r.examples.length ≤ 100 := by
  obtain ⟨best, final_point, -, -, hr⟩ := process_cell_256_some h
  rw [hr]
  show (mkExamples sample (sortByDistTo best pts)).length ≤ 100
  simp only [mkExamples, EXAMPLES_PER_CELL, List.length_map]
  by_cases hlen : (sortByDistTo best pts).length ≤ 100
  · rw [if_pos hlen]
    exact hlen
  · rw [if_neg hlen, hs _ (Nat.lt_of_not_le hlen)]

/-- C8: every record of the finest level and every record of any aggregated
level carries at most 100 examples. -/
theorem examples_bounded (fetchOk : String → Bool) (fileExists : Int × Int → Bool)
    (sample : List Point → List Point) (points : List Point)
    (lower : Grid) (target : Nat)
    (hs : ∀ l : List Point, 100 < l.length → (sample l).length = 100) :
    (∀ e ∈ grid256 fetchOk fileExists sample points, e.2.examples.length ≤ 100)
    ∧ (∀ e ∈ aggregate_grid lower target, e.2.examples.length ≤ 100) := by
  constructor
  · intro e he
    obtain ⟨kv, -, hkv⟩ := List.mem_filterMap.mp he
    rcases hp : process_cell_256 fetchOk (fileExists kv.1) sample kv.2 kv.1.1 kv.1.2
      with - | r
    · rw [hp] at hkv
      exact Option.noConfusion hkv
    · rw [hp] at hkv
      simp only [Option.map_some', Option.some.injEq] at hkv
      rw [← hkv]
      exact process_cell_256_examples_le hs hp
  · intro e he
    obtain ⟨k, r⟩ := e
    rw [mem_aggregate_grid] at he
    obtain ⟨cx, cy, -, -, -, best, -, hr⟩ := he
    rw [hr]
    show ((aggChildren lower cx cy).flatMap _ |>.take EXAMPLES_PER_CELL).length ≤ 100
    rw [List.length_take]
    exact min_le_left _ _

theorem examples_bounded_witness :
    (∀ e ∈ grid256 fetchEx (fun _ => false) sampleEx ptsEx, e.2.examples.length ≤ 100)
    ∧ (∀ e ∈ aggregate_grid lowerEx 1, e.2.examples.length ≤ 100) :=
  examples_bounded fetchEx (fun _ => false) sampleEx ptsEx lowerEx 1
    (fun l h => by simp only [sampleEx, List.length_take]; omega)

/-! ### The Tile Serializer (C9, C10) -/

theorem le_mul_ceilDiv (n p : Nat) (hp : 0 < p) : n ≤ p * ceilDiv n p := by
  have hd := Nat.div_add_mod (n + p - 1) p
  have hr : (n + p - 1) % p < p := Nat.mod_lt _ hp
  rw [ceilDiv]
  generalize hq : (n + p - 1) / p = q at hd
  generalize hrr : (n + p - 1) % p = r at hd hr
  generalize hpq : p * q = t at hd ⊢
  omega

theorem ceilDiv_pos (a b : Nat) (ha : 0 < a) (hb : 0 < b) : 0 < ceilDiv a b := by
  have hd := Nat.div_add_mod (a + b - 1) b
  have hr : (a + b - 1) % b < b := Nat.mod_lt _ hb
  rw [ceilDiv]
  generalize hq : (a + b - 1) / b = q at hd ⊢
  generalize hrr : (a + b - 1) % b = r at hd hr
  rcases Nat.eq_zero_or_pos q with rfl | hqpos
  · omega
  · exact hqpos

theorem flatten_chunks {α : Type} (c k : Nat) :
    ∀ l : List α, l.length ≤ k * c →
      ((List.range k).map (fun i => (l.drop (i * c)).take c)).flatten = l := by
  induction k with
  | zero =>
    intro l h
    simp only [Nat.zero_mul, Nat.le_zero, List.length_eq_zero] at h
    simp [h]
  | succ k ih =>
    intro l h
    rw [List.range_succ_eq_map, List.map_cons, List.flatten_cons, List.map_map]
    have h2 : ∀ i ∈ List.range k,
        ((fun i => (l.drop (i * c)).take c) ∘ Nat.succ) i
          = (fun i => ((l.drop c).drop (i * c)).take c) i := by
      intro i _
      simp only [Function.comp_apply, List.drop_drop]
      rw [Nat.succ_mul, Nat.add_comm (i * c) c]
    rw [List.map_congr_left h2, ih (l.drop c) ?_]
    · simp [List.take_append_drop]
    · rw [List.length_drop]
      rw [Nat.succ_mul] at h
      omega

/-- C9: when a level's serialization exceeds the byte budget, the shards the
serializer writes cover exactly the level's key set: the multiset of keys
across all shards is a permutation of the level's keys, with no duplicates. -/
theorem shard_completeness (sizeBytes : Nat) (data : List (String × Record))
    (hbig : MAX_JSON_MB * 1024 * 1024 < sizeBytes)
    (hnd : (data.map Prod.fst).Nodup) :
    ((save_json_split sizeBytes data).flatten.map Prod.fst).Perm (data.map Prod.fst)
    ∧ ((save_json_split sizeBytes data).flatten.map Prod.fst).Nodup := by
  have hperm : (data.mergeSort (fun a b => decide (a.1 < b.1) || (a.1 == b.1))).Perm data :=
    List.mergeSort_perm data _
  have hflat : (save_json_split sizeBytes data).flatten
      = data.mergeSort (fun a b => decide (a.1 < b.1) || (a.1 == b.1)) := by
    rw [save_json_split]
    simp only [if_neg (Nat.not_le_of_lt hbig)]
    refine flatten_chunks _ _ _ ?_
    refine le_mul_ceilDiv _ _ ?_
    exact ceilDiv_pos _ _ (Nat.lt_of_le_of_lt (Nat.zero_le _) hbig) (by decide)
  rw [hflat]
  refine ⟨hperm.map Prod.fst, ?_⟩
  exact ((hperm.map Prod.fst).nodup_iff).mpr hnd

/-- Concrete oversized level data: two entries whose serialization is taken
to be 120 MB against the 50 MB budget. -/
def shardData : List (String × Record) := [("0,0", recA), ("0,1", recB)]

theorem shard_completeness_witness :
    ((save_json_split (120 * 1024 * 1024) shardData).flatten.map Prod.fst).Perm
      (shardData.map Prod.fst)
    ∧ ((save_json_split (120 * 1024 * 1024) shardData).flatten.map Prod.fst).Nodup :=
  shard_completeness (120 * 1024 * 1024) shardData (by decide) (by decide)

/-- C10: an oversized level map can produce a shard with zero entries: with 2
entries at 120 MB against the 50 MB budget, `parts = 3` and `chunk = 1`, so
the third shard is empty while the two entries are preserved in the first two
shards. -/
theorem empty_final_shard :
    save_json_split (120 * 1024 * 1024) shardData
      = [[("0,0", recA)], [("0,1", recB)], []] := by
  have hsorted : shardData.mergeSort (fun a b => decide (a.1 < b.1) || (a.1 == b.1))
      = shardData :=
    List.mergeSort_of_sorted (by with_unfolding_all decide)
  rw [save_json_split]
  simp only [hsorted]
  decide

/-! ### The Representative Selector tie-break (C3) -/

theorem pyMaxBy_map {α γ β : Type} [LinearOrder β] (g : γ → α) (f : α → β) (l : List γ) :
    pyMaxBy f (l.map g) = Option.map g (pyMaxBy (fun x => f (g x)) l) := by
  cases l with
  | nil => rfl
  | cons x xs =>
    simp only [List.map_cons, pyMaxBy, Option.map_some']
    congr 1
    induction xs generalizing x with
    | nil => rfl
    | cons y ys ih =>
      simp only [List.map_cons, List.foldl_cons]
      by_cases h : f (g x) < f (g y)
      · rw [if_pos h, if_pos h]
        exact ih y
      · rw [if_neg h, if_neg h]
        exact ih x

/-- Amended C3: `_find_densest_point` agrees with the claim's description
everywhere except the tie-break, which follows the first-occurrence
(dict-insertion) order of sub-cells rather than row-major order. -/
theorem find_densest_point_amended_correct (cell_points : List Point)
    (x_min x_max y_min y_max : Rat) :
    find_densest_point cell_points (x_min, x_max, y_min, y_max)
      = find_densest_point_amended cell_points (x_min, x_max, y_min, y_max) := by
  by_cases hlen : cell_points.length ≤ 50
  · simp only [find_densest_point, find_densest_point_amended, hlen, if_pos]
    rw [argminFirst, pyMinBy_eq_find?]
  · simp only [find_densest_point, find_densest_point_amended, hlen, if_neg,
      if_false, argminFirst, miniBucket]
    rw [groupByKey_eq, pyMaxBy_map, pyMaxBy_eq_find?]
    rcases hfind : (firstOccurrences (cell_points.map
        (miniKey x_min y_min ((x_max - x_min) / (MINI_GRID_SIZE : Rat))
          ((y_max - y_min) / (MINI_GRID_SIZE : Rat))))).find?
        (fun k => decide (∀ k' ∈ firstOccurrences (cell_points.map
          (miniKey x_min y_min ((x_max - x_min) / (MINI_GRID_SIZE : Rat))
            ((y_max - y_min) / (MINI_GRID_SIZE : Rat)))),
          (cell_points.filter (fun q => decide (miniKey x_min y_min
            ((x_max - x_min) / (MINI_GRID_SIZE : Rat))
            ((y_max - y_min) / (MINI_GRID_SIZE : Rat)) q = k'))).length ≤
          (cell_points.filter (fun q => decide (miniKey x_min y_min
            ((x_max - x_min) / (MINI_GRID_SIZE : Rat))
            ((y_max - y_min) / (MINI_GRID_SIZE : Rat)) q = k))).length))
      with - | k
    · rfl
    · exact pyMinBy_eq_find? _ _

/-- A point of the tie scenario landing in sub-cell `(5,5)` of the unit cell. -/
def ptC : Point := ⟨"uc", "cc", mkRat 11 20, mkRat 11 20⟩

/-- A point of the tie scenario landing in sub-cell `(0,0)` of the unit cell. -/
def ptD : Point := ⟨"ud", "cd", mkRat 1 20, mkRat 1 20⟩

/-- 52 points: 26 in sub-cell `(5,5)` first, then 26 in sub-cell `(0,0)` —
an exact density tie between the two sub-cells. -/
def ptsTie : List Point := List.replicate 26 ptC ++ List.replicate 26 ptD

set_option maxRecDepth 40000 in
theorem selector_tie_counterexample :
    find_densest_point ptsTie (0, 1, 0, 1) = some ptC
    ∧ find_densest_point_claimed ptsTie (0, 1, 0, 1) = some ptD
    ∧ ptC ≠ ptD := by
  refine ⟨?_, ?_, by decide⟩
  · with_unfolding_all decide
  · with_unfolding_all decide

/-! ### Finest-level count conservation (C6) -/

theorem sum_map_add {α : Type} (l : List α) (f g : α → Nat) :
    (l.map (fun x => f x + g x)).sum = (l.map f).sum + (l.map g).sum := by
  induction l with
  | nil => rfl
  | cons x xs ih =>
    simp only [List.map_cons, List.sum_cons, ih]
    omega

theorem sum_ite_eq_of_mem {K' : Type} [DecidableEq K'] (K : List K') (k₀ : K')
    (w : K' → Nat) (hnd : K.Nodup) (hmem : k₀ ∈ K) :
    (K.map (fun k => if k₀ = k then w k else 0)).sum = w k₀ := by
  induction K with
  | nil => cases hmem
  | cons k K' ih =>
    rcases hnd with - | ⟨hk, hnd'⟩
    by_cases hkk : k₀ = k
    · subst hkk
      have hz : ∀ k' ∈ K', (if k₀ = k' then w k' else 0) = 0 := by
        intro k' hk'
        have : k₀ ≠ k' := fun hEq => hk k' hk' hEq
        simp [this]
      have : (K'.map (fun k => if k₀ = k then w k else 0)).sum = 0 := by
        refine List.sum_eq_zero ?_
        intro x hx
        obtain ⟨k', hk', hval⟩ := List.mem_map.mp hx
        rw [← hval]
        exact hz k' hk'
      simp [List.sum_cons, this]
    · have hmem' : k₀ ∈ K' := by
        rcases List.mem_cons.mp hmem with h | h
        · exact absurd h hkk
        · exact h
      simp [List.sum_cons, hkk, ih hnd' hmem']

theorem sum_bucket_lengths {K' α : Type} [DecidableEq K'] (keyF : α → K') (Q : K' → Bool)
    (K : List K') (hnd : K.Nodup) (pts : List α) (hK : ∀ p ∈ pts, keyF p ∈ K) :
    (K.map (fun k => if Q k then (pts.filter (fun q => decide (keyF q = k))).length else 0)).sum
      = (pts.filter (fun p => Q (keyF p))).length := by
  induction pts with
  | nil => simp
  | cons p pts ih =>
    have hsplit : ∀ k ∈ K,
        (if Q k then ((p :: pts).filter (fun q => decide (keyF q = k))).length else 0)
          = (if Q k then (pts.filter (fun q => decide (keyF q = k))).length else 0)
            + (if keyF p = k then (if Q k then 1 else 0) else 0) := by
      intro k _
      by_cases hpk : keyF p = k
      · simp [List.filter_cons, hpk]
        by_cases hq : Q k
        · simp [hq]
        · simp [hq]
      · simp [List.filter_cons, hpk]
    rw [List.map_congr_left hsplit, sum_map_add,
      ih (fun q hq => hK q (List.mem_cons_of_mem p hq)),
      sum_ite_eq_of_mem K (keyF p) (fun k => if Q k then 1 else 0) hnd
        (hK p (List.mem_cons_self p pts))]
    by_cases hq : Q (keyF p)
    · simp [List.filter_cons, hq]
    · simp [List.filter_cons, hq]

theorem lookupKey_filterMap_not_mem {m : List ((Int × Int) × List Point)}
    {F : (Int × Int) → List Point → Option Record} {k : Int × Int}
    (h : ∀ kv ∈ m, kv.1 ≠ k) :
    lookupKey (m.filterMap (fun kv => (F kv.1 kv.2).map (fun r => (kv.1, r)))) k
      = none := by
  induction m with
  | nil => rfl
  | cons kv rest ih =>
    have hne : kv.1 ≠ k := h kv (List.mem_cons_self kv rest)
    rcases hF : F kv.1 kv.2 with - | r
    · simp only [List.filterMap_cons, hF, Option.map_none']
      exact ih (fun kv' hkv' => h kv' (List.mem_cons_of_mem kv hkv'))
    · simp only [List.filterMap_cons, hF, Option.map_some']
      rw [lookupKey, if_neg hne]
      exact ih (fun kv' hkv' => h kv' (List.mem_cons_of_mem kv hkv'))

theorem lookupKey_filterMap_grid (m : List ((Int × Int) × List Point))
    (F : (Int × Int) → List Point → Option Record) (k : Int × Int)
    (hnd : (m.map Prod.fst).Nodup) :
    lookupKey (m.filterMap (fun kv => (F kv.1 kv.2).map (fun r => (kv.1, r)))) k
      = (lookupKey m k).bind (fun ps => F k ps) := by
  induction m with
  | nil => rfl
  | cons kv rest ih =>
    obtain ⟨k', ps⟩ := kv
    rw [List.map_cons] at hnd
    rcases hnd with - | ⟨hk', hnd'⟩
    have hrest : ∀ kv' ∈ rest, kv'.1 ≠ k' := by
      intro kv' hkv' hEq
      exact hk' kv'.1 (List.mem_map_of_mem Prod.fst hkv') hEq.symm
    by_cases hkk : k' = k
    · subst hkk
      rcases hF : F k' ps with - | r
      · simp only [List.filterMap_cons, hF, Option.map_none']
        rw [lookupKey, if_pos rfl]
        simp only [Option.some_bind, hF]
        exact lookupKey_filterMap_not_mem hrest
      · simp only [List.filterMap_cons, hF, Option.map_some']
        rw [lookupKey, if_pos rfl, lookupKey, if_pos rfl]
        simp [hF]
    · rcases hF : F k' ps with - | r
      · simp only [List.filterMap_cons, hF, Option.map_none']
        rw [lookupKey, if_neg hkk]
        exact ih hnd'
      · simp only [List.filterMap_cons, hF, Option.map_some']
        rw [lookupKey, if_neg hkk, lookupKey, if_neg hkk]
        exact ih hnd' 

theorem sum_counts_filterMap (m : List ((Int × Int) × List Point))
    (F : (Int × Int) → List Point → Option Record) :
    ((m.filterMap (fun kv => (F kv.1 kv.2).map (fun r => (kv.1, r)))).map
      (fun e => e.2.count)).sum
    = (m.map (fun kv => ((F kv.1 kv.2).map (fun r => r.count)).getD 0)).sum := by
  induction m with
  | nil => rfl
  | cons kv rest ih =>
    rcases hF : F kv.1 kv.2 with - | r
    · simp only [List.filterMap_cons, hF, Option.map_none', List.map_cons,
        List.sum_cons, Option.getD_none]
      rw [ih]
      omega
    · simp only [List.filterMap_cons, hF, Option.map_some', List.map_cons,
        List.sum_cons, Option.getD_some]
      rw [ih]

/-- C6: the counts of the emitted finest-level records sum to exactly the
number of points lying in cells whose image acquisition succeeded (cells whose
candidates all failed contribute no record and their points are excluded; the
buckets partition the points, so no point is counted twice). -/
theorem finest_count_conservation (fetchOk : String → Bool)
    (fileExists : Int × Int → Bool) (sample : List Point → List Point)
    (points : List Point) :
    ((grid256 fetchOk fileExists sample points).map (fun e => e.2.count)).sum
      = (points.filter (fun p =>
          (lookupKey (grid256 fetchOk fileExists sample points)
            (pointCell256 p)).isSome)).length := by
  have hnodup : ((bucket256 points).map Prod.fst).Nodup := by
    rw [bucket256, groupByKey_keys]
    exact firstOccurrences_nodup _
  have hmemK : ∀ p ∈ points,
      pointCell256 p ∈ firstOccurrences (points.map pointCell256) := by
    intro p hp
    exact (mem_firstOccurrences _ _).mpr (List.mem_map_of_mem pointCell256 hp)
  have hlook : ∀ p ∈ points,
      (lookupKey (grid256 fetchOk fileExists sample points) (pointCell256 p)).isSome
        = (process_cell_256 fetchOk (fileExists (pointCell256 p)) sample
            (points.filter (fun q => decide (pointCell256 q = pointCell256 p)))
            (pointCell256 p).1 (pointCell256 p).2).isSome := by
    intro p hp
    rw [grid256, lookupKey_filterMap_grid (bucket256 points)
      (fun k ps => process_cell_256 fetchOk (fileExists k) sample ps k.1 k.2)
      (pointCell256 p) hnodup,
      bucket256, lookupKey_groupByKey, if_pos (List.mem_map_of_mem pointCell256 hp)]
    rfl
  rw [List.filter_congr hlook]
  rw [grid256, sum_counts_filterMap (bucket256 points)
    (fun k ps => process_cell_256 fetchOk (fileExists k) sample ps k.1 k.2)]
  rw [bucket256, groupByKey_eq, List.map_map]
  have hpt : ∀ k ∈ firstOccurrences (points.map pointCell256),
      ((fun kv : (Int × Int) × List Point =>
          ((process_cell_256 fetchOk (fileExists kv.1) sample kv.2 kv.1.1 kv.1.2).map
            (fun r => r.count)).getD 0) ∘
        (fun k => (k, points.filter (fun q => decide (pointCell256 q = k))))) k
        = if (process_cell_256 fetchOk (fileExists k) sample
              (points.filter (fun q => decide (pointCell256 q = k))) k.1 k.2).isSome
          then (points.filter (fun q => decide (pointCell256 q = k))).length else 0 := by
    intro k _
    simp only [Function.comp_apply]
    rcases hFk : process_cell_256 fetchOk (fileExists k) sample
        (points.filter (fun q => decide (pointCell256 q = k))) k.1 k.2 with - | r
    · simp
    · obtain ⟨best, fp, -, -, hr⟩ := process_cell_256_some hFk
      simp only [Option.map_some', Option.getD_some, Option.isSome_some, if_true]
      rw [hr]
  rw [List.map_congr_left hpt,
    sum_bucket_lengths pointCell256
      (fun k => (process_cell_256 fetchOk (fileExists k) sample
        (points.filter (fun q => decide (pointCell256 q = k))) k.1 k.2).isSome)
      (firstOccurrences (points.map pointCell256))
      (firstOccurrences_nodup _) points hmemK]

/-! ### Input validation and the run exit (C4) -/

theorem aggregate_grid_nil (t : Nat) : aggregate_grid [] t = [] := by
  rw [aggregate_grid]
  rw [List.flatMap_eq_nil_iff]
  intro cx _
  rw [List.filterMap_eq_nil_iff]
  intro cy _
  rfl

/-- An input table with all columns present and no rows. -/
def emptyInput : RawInput := ⟨true, true, true, true, []⟩

/-- An input table whose `x` column has zero range (both rows share `x = 1`). -/
def zeroRangeInput : RawInput :=
  ⟨true, true, true, true, [⟨"u1", "c1", 1, 1⟩, ⟨"u2", "c2", 1, 2⟩]⟩

theorem normalizer_counterexample :
    load_and_normalize emptyInput = Except.ok []
    ∧ (load_and_normalize zeroRangeInput).isOk = true
    ∧ run_process (fun _ => true) (fun _ => true) (fun l => l.take 100) emptyInput
        = (0, some ([], [], [])) := by
  refine ⟨by with_unfolding_all rfl, by with_unfolding_all rfl, ?_⟩
  have h256 : grid256 (fun _ => true) (fun _ => true) (fun l => l.take 100) [] = [] := rfl
  have hload : load_and_normalize emptyInput = Except.ok [] := by
    with_unfolding_all rfl
  rw [run_process, hload]
  simp only [build_grids, h256, aggregate_grid_nil]

/-- Amended C4: `load_and_normalize` raises exactly when a column is missing
(`ValueError` for the required `x`/`y`/`url`, `KeyError` for `caption`), and
never inspects emptiness or coordinate range; a missing required column aborts
the run with exit code 1, while an empty point list completes the run with
exit code 0 and three empty levels. -/
theorem normalizer_amended (inp : RawInput) (fetchOk : String → Bool)
    (fileExists : Int × Int → Bool) (sample : List Point → List Point) :
    ((load_and_normalize inp).isOk
        = (inp.hasX && inp.hasY && inp.hasUrl && inp.hasCaption))
    ∧ ((inp.hasX && inp.hasY && inp.hasUrl) = false →
        run_process fetchOk fileExists sample inp = (1, none))
    ∧ (inp.hasX = true → inp.hasY = true → inp.hasUrl = true → inp.hasCaption = true →
        inp.rows = [] →
        run_process fetchOk fileExists sample inp = (0, some ([], [], []))) := by
  obtain ⟨hx, hy, hu, hc, rows⟩ := inp
  refine ⟨?_, ?_, ?_⟩
  · cases hx <;> cases hy <;> cases hu <;> cases hc <;>
      simp [load_and_normalize, Except.isOk, Except.toBool]
  · intro h
    simp only at h
    rw [run_process]
    rw [load_and_normalize]
    simp only [h, Bool.not_false, if_pos, Bool.false_eq_true]
  · intro h1 h2 h3 h4 h5
    simp only at h1 h2 h3 h4 h5
    subst h1 h2 h3 h4 h5
    have hload : load_and_normalize ⟨true, true, true, true, []⟩ = Except.ok [] := by
      with_unfolding_all rfl
    rw [run_process, hload]
    have h256 : grid256 fetchOk fileExists sample [] = [] := rfl
    simp only [build_grids, h256, aggregate_grid_nil]

theorem normalizer_amended_witness :
    (load_and_normalize emptyInput).isOk = true
    ∧ run_process (fun _ => true) (fun _ => true) (fun l => l.take 100)
        ⟨false, true, true, true, []⟩ = (1, none)
    ∧ run_process (fun _ => true) (fun _ => true) (fun l => l.take 100) emptyInput
        = (0, some ([], [], [])) := by
  refine ⟨?_, ?_, ?_⟩
  · rw [(normalizer_amended emptyInput (fun _ => true) (fun _ => true)
      (fun l => l.take 100)).1]
    rfl
  · exact (normalizer_amended ⟨false, true, true, true, []⟩ (fun _ => true)
      (fun _ => true) (fun l => l.take 100)).2.1 rfl
  · exact (normalizer_amended emptyInput (fun _ => true) (fun _ => true)
      (fun l => l.take 100)).2.2 rfl rfl rfl rfl rfl
